import Mathlib

/-!
Shallow embedding of the AdvancedTransfer plugin
(src/plugins.v2/advancedtransfer/__init__.py) and proofs about its
reconciliation core: tracker sanitization, magnet construction, the
three-scenario transfer classification, per-torrent processing with its
idempotency ledger, and the run loop.

Strings are modelled as `List Char` (`Str`).  Each definition is a direct
translation of the corresponding Python function; the downloader clients
are modelled by an environment `Env` of response functions, and every call
that mutates a downloader is recorded in an operation trace (`Op`).
-/

namespace AdvTransfer

/-- Python strings, modelled as lists of characters. -/
abbrev Str := List Char

/-- Python `str.strip()`: drop whitespace from both ends. -/
def pyStrip (s : Str) : Str :=
  ((s.dropWhile Char.isWhitespace).reverse.dropWhile Char.isWhitespace).reverse

/-- Python `url.startswith(("http", "udp"))` used by the tracker filters. -/
def startsHU (s : Str) : Bool :=
  List.isPrefixOf ['h', 't', 't', 'p'] s || List.isPrefixOf ['u', 'd', 'p'] s

/-- Concatenation of a list of lists (used for tracker tiers and
percent-encoding; self-contained replacement for join/flatten). -/
def concatLists : List (List α) → List α
  | [] => []
  | l :: ls => l ++ concatLists ls

/-! ### Tracker URL extraction (`_get_qb_tracker_urls` / `_get_tr_tracker_urls`)

Both readers iterate the client's tracker entries, read the announce URL
string of each entry, and keep `url.strip()` whenever the raw URL is
non-empty and starts with `http` or `udp`.  The entry objects are modelled
by their URL string directly. -/

def readTrackerUrls (raw : List Str) : List Str :=
  raw.foldr
    (fun u acc => if !u.isEmpty && startsHU u then pyStrip u :: acc else acc) []

/-! ### Tracker sanitization (`_sanitize_tracker_list`) -/

/-- An element of the Python input list: a string, a nested list/tuple of
strings, `None`, or any other non-`None` value (coerced by `str()`). -/
inductive RawItem where
  | str (s : Str)
  | nested (xs : List Str)
  | pynone
  | other (s : Str)
deriving DecidableEq

/-- The per-entry step of `_sanitize_tracker_list`:
`url = str(item).strip()` kept when `url and url.startswith(("http", "udp"))`. -/
def cleanRaw (s : Str) : Option Str :=
  let u := pyStrip s
  if !u.isEmpty && startsHU u then some u else none

/-- First pass of `_sanitize_tracker_list`: flatten nested tiers, coerce,
strip, and filter, preserving order (the `clean` list in the source). -/
def cleanPass : List RawItem → List Str
  | [] => []
  | .str s :: r => (cleanRaw s).toList ++ cleanPass r
  | .nested xs :: r => xs.filterMap cleanRaw ++ cleanPass r
  | .pynone :: r => cleanPass r
  | .other s :: r => (cleanRaw s).toList ++ cleanPass r

/-- Second pass of `_sanitize_tracker_list`: drop duplicates keeping the
first occurrence (the `seen` set / `result` list loop in the source). -/
def dedupFirstAux (seen : List Str) : List Str → List Str
  | [] => []
  | u :: rest =>
      if seen.contains u then dedupFirstAux seen rest
      else u :: dedupFirstAux (u :: seen) rest

/-- `_sanitize_tracker_list`. -/
def sanitizeTrackerList (l : List RawItem) : List Str :=
  dedupFirstAux [] (cleanPass l)

/-- `_sanitize_tracker_list` applied to a plain list of strings (how the
scenario-B code calls it). -/
def sanitizeStrs (l : List Str) : List Str :=
  sanitizeTrackerList (l.map .str)

/-! ### Magnet construction (`_build_magnet`, via `urllib.parse.quote`) -/

/-- Characters never percent-encoded by `urllib.parse.quote`
(ASCII letters, digits, and `_.-~`). -/
def alwaysSafeChar (c : Char) : Bool :=
  c.isAlpha || c.isDigit || c = '_' || c = '.' || c = '-' || c = '~'

/-- Uppercase hexadecimal digit, for percent-escapes. -/
def hexDigit (n : Nat) : Char :=
  if n < 10 then Char.ofNat ('0'.toNat + n) else Char.ofNat ('A'.toNat + (n - 10))

/-- UTF-8 encoding of one character (Python encodes non-ASCII input of
`quote` as UTF-8 bytes before escaping). -/
def utf8Bytes (c : Char) : List Nat :=
  let n := c.toNat
  if n < 0x80 then [n]
  else if n < 0x800 then [0xC0 + n / 64, 0x80 + n % 64]
  else if n < 0x10000 then
    [0xE0 + n / 4096, 0x80 + (n / 64) % 64, 0x80 + n % 64]
  else
    [0xF0 + n / 262144, 0x80 + (n / 4096) % 64, 0x80 + (n / 64) % 64, 0x80 + n % 64]

/-- One percent-escaped byte, e.g. `%2F`. -/
def pctByte (b : Nat) : Str := ['%', hexDigit (b / 16), hexDigit (b % 16)]

/-- `urllib.parse.quote(s, safe)` with an explicit safe-character list
(the plugin uses the default `safe='/'` for names and `safe=''` for trackers). -/
def pyQuote (safe : List Char) (s : Str) : Str :=
  concatLists (s.map fun c =>
    if alwaysSafeChar c || safe.contains c then [c]
    else concatLists ((utf8Bytes c).map pctByte))

/-- `_build_magnet(info_hash, trackers, name)`: start from
`magnet:?xt=urn:btih:<hash>`, append `&dn=<quoted name>` when the name is
non-empty, then append one `&tr=<quoted tracker>` per tracker in order. -/
def buildMagnet (infoHash : Str) (trackers : List Str) (name : Str) : Str :=
  trackers.foldl (fun acc t => acc ++ "&tr=".toList ++ pyQuote [] t)
    (if !name.isEmpty then
      "magnet:?xt=urn:btih:".toList ++ infoHash ++ "&dn=".toList ++ pyQuote ['/'] name
    else "magnet:?xt=urn:btih:".toList ++ infoHash)

/-! ### Data model -/

/-- Torrent metadata extracted from the source (`_extract_qb_meta` /
`_extract_tr_meta`): hash, display attributes, filtered tracker URLs, and
the zero-based indices of files the source has deselected. -/
structure Meta where
  hash : Str
  name : Str
  savePath : Str
  category : Str
  tags : Str
  labels : List Str
  trackers : List Str
  unwantedFileIds : List Nat
deriving DecidableEq

/-- Content used to add a torrent to the target: raw `.torrent` bytes or a
magnet URI string (`_get_torrent_content`). -/
inductive Content where
  | bytes (data : List Nat)
  | magnet (uri : Str)
deriving DecidableEq

/-- Python truthiness of the content value (`if not content`). -/
def contentFalsy : Content → Bool
  | .bytes bs => bs.isEmpty
  | .magnet u => u.isEmpty

/-- Whether the content is raw torrent-file bytes (`isinstance(content, bytes)`). -/
def contentIsBytes : Content → Bool
  | .bytes _ => true
  | .magnet _ => false

/-- Downloader client type (`service.type`): qBittorrent, or the
`else` branch (Transmission). -/
inductive ClientType where
  | qb
  | tr
deriving DecidableEq

/-- The two endpoints of a run. -/
inductive Endpoint where
  | source
  | target
deriving DecidableEq

/-- Scenario classification: A full transfer, B tracker merge, C skip. -/
inductive Scenario where
  | A
  | B
  | C
deriving DecidableEq

/-- Calls the plugin can issue against a downloader.  Mutations are
recorded in the execution trace; `queryTarget` records the read-only
target query so that "this torrent was processed" is observable.
`deleteTorrents` exists in the downloader interface but is proved to be
never issued. -/
inductive Op where
  | queryTarget (h : Str)
  | addTorrent (m : Meta) (c : Content)
  | qbUpdateTrackers (h : Str) (urls : List Str)
  | trTrackerListSet (h : Str) (tiers : List (List Str))
  | trTrackerAdd (h : Str) (urls : List Str)
  | setFilesSkip (h : Str) (ids : List Nat)
  | stopTorrents (h : Str)
  | deleteTorrents (e : Endpoint) (h : Str)
deriving DecidableEq

/-- Whether an operation is the (never issued) delete. -/
def Op.isDelete : Op → Bool
  | .deleteTorrents _ _ => true
  | _ => false

/-- Whether an operation is the source pause call. -/
def Op.isStop : Op → Bool
  | .stopTorrents _ => true
  | _ => false

/-- Whether an operation is directed at the source downloader (only the
pause call and a hypothetical source delete would be). -/
def Op.onSource : Op → Bool
  | .stopTorrents _ => true
  | .deleteTorrents .source _ => true
  | _ => false

/-- Whether an operation mutates a downloader (everything except the
read-only target query). -/
def Op.isMutation : Op → Bool
  | .queryTarget _ => false
  | _ => true

/-- Whether an operation is the target file-priority-skip call. -/
def Op.isSetFiles : Op → Bool
  | .setFilesSkip _ _ => true
  | _ => false

/-- Number of pause calls for a given hash in a trace. -/
def countStop (h : Str) (ops : List Op) : Nat :=
  (ops.filter (fun o => o == Op.stopTorrents h)).length

/-- Environment: the responses of the two downloaders' APIs.  Results of
calls whose outcome the plugin only logs (`set_files`, `stop_torrents`)
are included for completeness. -/
structure Env where
  /-- `torrents_export` on the source: `none` models an exception,
  `some bs` the returned bytes (possibly empty, i.e. falsy). -/
  exportBytes : Str → Option (List Nat)
  /-- Error flag of `target_server.get_torrents(ids=hash)`. -/
  queryError : Str → Bool
  /-- Torrents returned by the target query, each modelled by its raw
  announce-URL list. -/
  queryResult : Str → List (List Str)
  /-- Raw tracker entries returned by `torrents_trackers` on a qB target. -/
  qbRawTrackers : Str → List Str
  /-- Success of adding the torrent to the target. -/
  addOk : Meta → Content → Bool
  /-- Success of qB `update_tracker` (append). -/
  qbUpdateOk : Str → List Str → Bool
  /-- Success of Transmission `update_tracker` with a `tracker_list`. -/
  trListOk : Str → List (List Str) → Bool
  /-- Whether the Transmission wrapper exposes its `trc` client. -/
  trAddAvail : Bool
  /-- Success of `trc.change_torrent(tracker_add=...)` (false models an
  exception as well). -/
  trAddOk : Str → List Str → Bool
  /-- Success of the target file-priority call (result only logged). -/
  setFilesOk : Str → List Nat → Bool
  /-- Success of `stop_torrents` on the source (result only logged). -/
  stopOk : Str → Bool
  /-- Timestamp written into ledger entries (`datetime.now()`). -/
  now : Str

/-- Plugin configuration fields the core logic reads. -/
structure Config where
  sourceId : Str
  targetId : Str
  cleanSource : Bool

/-! ### Content resolution (`_get_torrent_content`) -/

/-- `_get_torrent_content`: for a qBittorrent source try `torrents_export`
and use the bytes when truthy; on exception or falsy bytes (and always for
a Transmission source) build a magnet URI from hash, name and trackers. -/
def getTorrentContent (env : Env) (sourceType : ClientType) (meta : Meta) : Content :=
  let magnet := Content.magnet (buildMagnet meta.hash meta.trackers meta.name)
  match sourceType with
  | .qb =>
      match env.exportBytes meta.hash with
      | some bs => if !bs.isEmpty then .bytes bs else magnet
      | none => magnet
  | .tr => magnet

/-! ### Transfer execution (`_execute_transfer` and the scenario handlers) -/

/-- Result of `_execute_transfer`: the `(scenario, success)` pair of the
source, plus the trace of downloader calls issued. -/
structure ExecResult where
  scenario : Option Scenario
  ok : Bool
  ops : List Op
deriving DecidableEq

/-- `_sync_unwanted_files`: guarded on a non-empty index list, then (after
the settle delay) one file-priority-skip call whose result is only logged. -/
def syncUnwantedFiles (h : Str) (ids : List Nat) : List Op :=
  if ids.isEmpty then [] else [Op.setFilesSkip h ids]

/-- `_scenario_a`: add the resolved content (auto-start); on add failure
the scenario fails; on success, if the content is raw bytes and the
unwanted-index list is non-empty, run the best-effort file sync. -/
def scenarioA (env : Env) (h : Str) (meta : Meta) (content : Content) :
    ExecResult :=
  if env.addOk meta content then
    let syncOps :=
      if !meta.unwantedFileIds.isEmpty && contentIsBytes content then
        syncUnwantedFiles h meta.unwantedFileIds
      else []
    ⟨some .A, true, Op.addTorrent meta content :: syncOps⟩
  else ⟨some .A, false, [Op.addTorrent meta content]⟩

/-- `_inject_tr_trackers`: primary `tracker_list` call submitting the
sanitized union of existing and missing trackers, one tier per URL; on
failure, fall back to `tracker_add` with only the sanitized missing URLs
(when the `trc` client is available). -/
def injectTrTrackers (env : Env) (h : Str)
    (missing existingList : List Str) : Bool × List Op :=
  let cleanList := sanitizeStrs (existingList ++ missing)
  let tiers := cleanList.map fun u => [u]
  if env.trListOk h tiers then (true, [Op.trTrackerListSet h tiers])
  else
    let cleanMissing := sanitizeStrs missing
    if env.trAddAvail then
      (env.trAddOk h cleanMissing,
       [Op.trTrackerListSet h tiers, Op.trTrackerAdd h cleanMissing])
    else (false, [Op.trTrackerListSet h tiers])

/-- `_scenario_b`: qB targets get one append-mode `update_tracker` call
with the sanitized missing URLs; Transmission targets go through the
two-tier fallback.  Exceptions are modelled by a false result. -/
def scenarioB (env : Env) (targetType : ClientType) (h : Str)
    (missing existingList : List Str) : ExecResult :=
  match targetType with
  | .qb =>
      let cleanList := sanitizeStrs missing
      ⟨some .B, env.qbUpdateOk h cleanList, [Op.qbUpdateTrackers h cleanList]⟩
  | .tr =>
      let r := injectTrTrackers env h missing existingList
      ⟨some .B, r.1, r.2⟩

/-- The target's tracker list as read in `_execute_transfer`: via
`_get_qb_tracker_urls` for qB, via `_get_tr_tracker_urls` on the first
queried torrent for Transmission. -/
def targetTrackerList (env : Env) (targetType : ClientType) (h : Str)
    (targetTorrents : List (List Str)) : List Str :=
  match targetType with
  | .qb => readTrackerUrls (env.qbRawTrackers h)
  | .tr => readTrackerUrls (targetTorrents.headD [])

/-- The tracker difference `set(source) - set(target)` of
`_execute_transfer`, by exact string equality.  Python iterates the
resulting set in unspecified order; the model fixes first-seen source
order (the same set, duplicate-free like Python's). -/
def missingTrackersOf (source target : List Str) : List Str :=
  dedupFirstAux [] (source.filter fun t => !target.contains t)

/-- `_execute_transfer`: query the target by hash (an error fails this
torrent), then classify — absent hash is scenario A, a non-empty tracker
difference is scenario B, otherwise scenario C (skip, success). -/
def executeTransfer (env : Env) (targetType : ClientType) (h : Str)
    (meta : Meta) (content : Content) : ExecResult :=
  if env.queryError h then ⟨none, false, [Op.queryTarget h]⟩
  else
    let tts := env.queryResult h
    if tts.isEmpty then
      let r := scenarioA env h meta content
      ⟨r.scenario, r.ok, Op.queryTarget h :: r.ops⟩
    else
      let existingList := targetTrackerList env targetType h tts
      let missing := missingTrackersOf meta.trackers existingList
      if !missing.isEmpty then
        let r := scenarioB env targetType h missing existingList
        ⟨r.scenario, r.ok, Op.queryTarget h :: r.ops⟩
      else ⟨some .C, true, [Op.queryTarget h]⟩

/-! ### Per-torrent processing (`_process_single_torrent`) -/

/-- Ledger entry (`history[hash]`). -/
structure Record where
  name : Str
  scenario : Scenario
  time : Str
  source : Str
  target : Str
deriving DecidableEq

instance : Inhabited Scenario := ⟨.A⟩

instance : Inhabited Record := ⟨⟨[], .A, [], [], []⟩⟩

/-- The idempotency ledger: hash-keyed entries (insertion at the head). -/
abbrev History := List (Str × Record)

/-- Run statistics. -/
structure Stats where
  transferred : Nat
  merged : Nat
  skipped : Nat
  failed : Nat
  details : List Str
deriving DecidableEq

def emptyStats : Stats := ⟨0, 0, 0, 0, []⟩

/-- How `_process_single_torrent` ended for one torrent (one constructor
per return path of the source). -/
inductive ItemOutcome where
  | noMeta
  | ledgerHit
  | contentUnavail
  | execFailed
  | done (sc : Scenario)
deriving DecidableEq

/-- Whether the outcome wrote a ledger entry. -/
def ItemOutcome.isDone : ItemOutcome → Bool
  | .done _ => true
  | _ => false

/-- Whether the outcome is a successful scenario A or B. -/
def ItemOutcome.isDoneAB : ItemOutcome → Bool
  | .done .A => true
  | .done .B => true
  | _ => false

/-- Whether the outcome incremented the failed counter. -/
def ItemOutcome.isFailedItem : ItemOutcome → Bool
  | .contentUnavail => true
  | .execFailed => true
  | _ => false

/-- Result of processing one torrent. -/
structure StepResult where
  hist : History
  stats : Stats
  ops : List Op
  outcome : ItemOutcome
deriving DecidableEq

/-- `meta["hash"].lower()`. -/
def lowerStr (s : Str) : Str := s.map Char.toLower

/-- The ledger key of a torrent (empty when metadata is absent). -/
def metaKey : Option Meta → Str
  | none => []
  | some m => lowerStr m.hash

/-- The name recorded for a torrent (empty when metadata is absent). -/
def metaName : Option Meta → Str
  | none => []
  | some m => m.name

/-- `_process_single_torrent`.  The torrent argument is the already
extracted metadata (`none` models `_extract_meta` failing); missing or
hash-less metadata is skipped without counting.  A ledgered hash is
skipped.  Falsy content counts as failed.  Then `_execute_transfer` runs;
on failure the failed counter is incremented, on success a ledger entry is
written, the per-scenario counter is incremented, and — except for
scenario C — the source torrent is paused when `clean_source` is set. -/
def processSingle (cfg : Config) (env : Env)
    (sourceType targetType : ClientType) (torrent : Option Meta)
    (hist : History) (st : Stats) : StepResult :=
  match torrent with
  | none => ⟨hist, st, [], .noMeta⟩
  | some meta =>
    if meta.hash.isEmpty then ⟨hist, st, [], .noMeta⟩
    else
      let h := lowerStr meta.hash
      if (hist.lookup h).isSome then ⟨hist, st, [], .ledgerHit⟩
      else
        let content := getTorrentContent env sourceType meta
        if contentFalsy content then
          ⟨hist, { st with failed := st.failed + 1 }, [], .contentUnavail⟩
        else
          let r := executeTransfer env targetType h meta content
          match r.scenario, r.ok with
          | _, false =>
              ⟨hist,
               { st with failed := st.failed + 1,
                         details := st.details ++ ["[失败] ".toList ++ meta.name] },
               r.ops, .execFailed⟩
          | none, true =>
              -- unreachable: a successful `_execute_transfer` always
              -- carries a scenario (mirrors the Python tuple shape)
              ⟨hist,
               { st with failed := st.failed + 1,
                         details := st.details ++ ["[失败] ".toList ++ meta.name] },
               r.ops, .execFailed⟩
          | some sc, true =>
              let hist' := (h, Record.mk meta.name sc env.now cfg.sourceId cfg.targetId) :: hist
              match sc with
              | .C => ⟨hist', { st with skipped := st.skipped + 1 }, r.ops, .done .C⟩
              | .A =>
                  let st' := { st with transferred := st.transferred + 1,
                                       details := st.details ++ ["[转移] ".toList ++ meta.name] }
                  let stopOps := if cfg.cleanSource then [Op.stopTorrents h] else []
                  ⟨hist', st', r.ops ++ stopOps, .done .A⟩
              | .B =>
                  let st' := { st with merged := st.merged + 1,
                                       details := st.details ++ ["[合并] ".toList ++ meta.name] }
                  let stopOps := if cfg.cleanSource then [Op.stopTorrents h] else []
                  ⟨hist', st', r.ops ++ stopOps, .done .B⟩

/-! ### The run (`_do_transfer`) -/

/-- Result of a full run. -/
structure RunResult where
  hist : History
  stats : Stats
  ops : List Op
deriving DecidableEq

/-- The per-torrent loop of `_do_transfer` (each torrent is processed with
the history and statistics left by its predecessors; `processSingle` is
total, so the per-item exception handler of the source is dead here). -/
def runLoop (cfg : Config) (env : Env) (sourceType targetType : ClientType) :
    List (Option Meta) → History → Stats → RunResult
  | [], hist, st => ⟨hist, st, []⟩
  | t :: ts, hist, st =>
      let r := processSingle cfg env sourceType targetType t hist st
      let rest := runLoop cfg env sourceType targetType ts r.hist r.stats
      ⟨rest.hist, rest.stats, r.ops ++ rest.ops⟩

/-- `_do_transfer`: abort (nothing processed, history unchanged) when the
source and target ids coincide, when the completed-torrent listing fails
(`None`), or when it is empty; otherwise run the loop starting from the
persisted history. -/
def doTransfer (cfg : Config) (env : Env) (sourceType targetType : ClientType)
    (sourceTorrents : Option (List (Option Meta))) (hist0 : History) : RunResult :=
  if cfg.sourceId = cfg.targetId then ⟨hist0, emptyStats, []⟩
  else
    match sourceTorrents with
    | none => ⟨hist0, emptyStats, []⟩
    | some [] => ⟨hist0, emptyStats, []⟩
    | some ts => runLoop cfg env sourceType targetType ts hist0 emptyStats

/-! ### Client-side tracker semantics (for the monotonicity claim) -/

/-- Modelled from the spec: client-side merge semantics of the tracker
mutations (the wrappers live outside this repository).  The bulk
`tracker_list` call replaces the torrent's full tracker list with the
submitted tiers, the incremental `tracker_add` and the qB append-mode
`update_tracker` append the submitted URLs, and a mutation that reports
failure leaves the tracker list unchanged. -/
def applyTrackerOp (env : Env) (h : Str) (cur : List Str) : Op → List Str
  | .trTrackerListSet h' tiers =>
      if h' = h ∧ env.trListOk h' tiers then concatLists tiers else cur
  | .trTrackerAdd h' urls =>
      if h' = h ∧ env.trAddOk h' urls then cur ++ urls else cur
  | .qbUpdateTrackers h' urls =>
      if h' = h ∧ env.qbUpdateOk h' urls then cur ++ urls else cur
  | _ => cur

/-- Tracker list of the torrent `h` after a trace of operations. -/
def applyTrackerOps (env : Env) (h : Str) (cur : List Str) : List Op → List Str
  | [] => cur
  | op :: ops => applyTrackerOps env h (applyTrackerOp env h cur op) ops

/-- The pre-run tracker state read for the target torrent `h`, per target
client type (the raw announce list the filtered readers are applied to). -/
def preTrackerState (env : Env) (targetType : ClientType) (h : Str) : List Str :=
  match targetType with
  | .qb => env.qbRawTrackers h
  | .tr => (env.queryResult h).headD []

/-- The fixed beginning of every constructed magnet URI. -/
def magnetHead (h : Str) : Str := "magnet:?xt=urn:btih:".toList ++ h

/-- Well-formedness of resolved content: raw bytes are non-empty, and a
magnet URI starts with `magnet:?xt=urn:btih:` followed by the hash. -/
def contentWellFormed (c : Content) (h : Str) : Bool :=
  match c with
  | .bytes bs => !bs.isEmpty
  | .magnet u => List.isPrefixOf (magnetHead h) u

/-- Operations that do not touch any tracker list. -/
def Op.trackerNeutral : Op → Bool
  | .qbUpdateTrackers _ _ => false
  | .trTrackerListSet _ _ => false
  | .trTrackerAdd _ _ => false
  | _ => true

/-- An environment in which every call succeeds, the export is
unavailable, and the target holds no torrents. -/
def baseEnv : Env where
  exportBytes := fun _ => none
  queryError := fun _ => false
  queryResult := fun _ => []
  qbRawTrackers := fun _ => []
  addOk := fun _ _ => true
  qbUpdateOk := fun _ _ => true
  trListOk := fun _ _ => true
  trAddAvail := true
  trAddOk := fun _ _ => true
  setFilesOk := fun _ _ => true
  stopOk := fun _ => true
  now := []

/-- The sample torrent of the magnet-construction property. -/
def sampleMeta : Meta where
  hash := "abc123".toList
  name := "Example".toList
  savePath := []
  category := []
  tags := []
  labels := []
  trackers := ["http://tr1.example/announce".toList, "udp://tr2.example:80".toList]
  unwantedFileIds := []

/-- A configuration with distinct endpoints and source pausing enabled. -/
def baseCfg : Config := ⟨"src".toList, "dst".toList, true⟩

/-- The sanitization example input of the spec:
`["  http://a ", "", "ftp://b", "http://a", ["udp://c"]]`. -/
def c5Input : List RawItem :=
  [.str "  http://a ".toList, .str "".toList, .str "ftp://b".toList,
   .str "http://a".toList, .nested ["udp://c".toList]]

/-- Modelled from the spec: a tracker entry whose URL scheme is `http`,
`https` or `udp` (the claim's filter criterion, stated on the scheme). -/
def specAllowedScheme (s : Str) : Bool :=
  List.isPrefixOf "http://".toList s || List.isPrefixOf "https://".toList s ||
    List.isPrefixOf "udp://".toList s

/-- A ledger already holding the sample hash, for the C2 witness. -/
def c2Hist : History := [("abc123".toList, Record.mk [] .A [] [] [])]

/-- A target state that already holds the sample torrent with the same
tracker, for forcing a scenario-C outcome. -/
def envC8 : Env := { baseEnv with queryResult := fun _ => [["http://a".toList]] }

/-- The sample torrent with a single tracker. -/
def metaOneTracker : Meta := { sampleMeta with trackers := ["http://a".toList] }

/-- A ledger holding an unrelated hash, for the C7 witness. -/
def c7Hist : History := [("zz".toList, Record.mk [] .A [] [] [])]

/-- A target whose existing torrent carries only an `ftp://` tracker. -/
def envC3 : Env := { baseEnv with queryResult := fun _ => [["ftp://b".toList]] }

/-- A Transmission target already holding the hash with tracker
`http://a`, while the source also carries `http://b`. -/
def envC3w : Env := { baseEnv with queryResult := fun _ => [["http://a".toList]] }

/-- The sample torrent carrying the tracker `http://b`. -/
def metaC3w : Meta := { sampleMeta with trackers := ["http://b".toList] }

/-- Hashes and torrents for the run-abort counterexample. -/
def metaHashAA : Meta := { sampleMeta with hash := "aa".toList, trackers := [] }

/-- The second torrent of the run-abort counterexample. -/
def metaHashBB : Meta := { sampleMeta with hash := "bb".toList, trackers := [] }

/-- An environment whose target query errors exactly for hash `aa`. -/
def envC6 : Env := { baseEnv with queryError := fun h => h == "aa".toList }

/-! ### Helper lemmas: deduplication, sanitization, tracker reading -/

lemma contains_iff_memStr (l : List Str) (x : Str) : l.contains x = true ↔ x ∈ l := by
  simpa [List.contains] using List.elem_iff

lemma dedupFirstAux_cons_mem (seen : List Str) (u : Str) (rest : List Str)
    (hu : u ∈ seen) : dedupFirstAux seen (u :: rest) = dedupFirstAux seen rest := by
  have hc : seen.contains u = true := (contains_iff_memStr seen u).mpr hu
  simp only [dedupFirstAux, hc]
  simp

lemma dedupFirstAux_cons_not_mem (seen : List Str) (u : Str) (rest : List Str)
    (hu : u ∉ seen) :
    dedupFirstAux seen (u :: rest) = u :: dedupFirstAux (u :: seen) rest := by
  have hc : seen.contains u = false := by
    rcases hc : seen.contains u with _ | _
    · rfl
    · exact absurd ((contains_iff_memStr seen u).mp hc) hu
  simp only [dedupFirstAux, hc]
  simp

lemma mem_dedupFirstAux : ∀ (l seen : List Str) (x : Str),
    x ∈ dedupFirstAux seen l ↔ x ∈ l ∧ x ∉ seen
  | [], seen, x => by simp [dedupFirstAux]
  | u :: rest, seen, x => by
      by_cases hu : u ∈ seen
      · rw [dedupFirstAux_cons_mem seen u rest hu, mem_dedupFirstAux rest seen x]
        constructor
        · rintro ⟨h1, h2⟩
          exact ⟨List.mem_cons_of_mem _ h1, h2⟩
        · rintro ⟨h1, h2⟩
          rcases List.mem_cons.mp h1 with h | h
          · exact absurd (h ▸ hu) h2
          · exact ⟨h, h2⟩
      · rw [dedupFirstAux_cons_not_mem seen u rest hu]
        rw [List.mem_cons, mem_dedupFirstAux rest (u :: seen) x]
        constructor
        · rintro (h | ⟨h1, h2⟩)
          · exact ⟨h ▸ List.mem_cons_self u rest, h ▸ hu⟩
          · exact ⟨List.mem_cons_of_mem _ h1,
              fun hm => h2 (List.mem_cons_of_mem _ hm)⟩
        · rintro ⟨h1, h2⟩
          by_cases hxu : x = u
          · exact Or.inl hxu
          · rcases List.mem_cons.mp h1 with h | h
            · exact absurd h hxu
            · refine Or.inr ⟨h, fun hm => ?_⟩
              rcases List.mem_cons.mp hm with h' | h'
              · exact hxu h'
              · exact h2 h'

lemma dedupFirstAux_sublist : ∀ (l seen : List Str),
    List.Sublist (dedupFirstAux seen l) l
  | [], _ => List.Sublist.refl []
  | u :: rest, seen => by
      by_cases hu : u ∈ seen
      · rw [dedupFirstAux_cons_mem seen u rest hu]
        exact (dedupFirstAux_sublist rest seen).cons u
      · rw [dedupFirstAux_cons_not_mem seen u rest hu]
        exact (dedupFirstAux_sublist rest (u :: seen)).cons₂ u

lemma dedupFirstAux_nodup : ∀ (l seen : List Str), (dedupFirstAux seen l).Nodup
  | [], _ => List.nodup_nil
  | u :: rest, seen => by
      by_cases hu : u ∈ seen
      · rw [dedupFirstAux_cons_mem seen u rest hu]
        exact dedupFirstAux_nodup rest seen
      · rw [dedupFirstAux_cons_not_mem seen u rest hu]
        refine List.nodup_cons.mpr ⟨fun hm => ?_, dedupFirstAux_nodup rest (u :: seen)⟩
        exact ((mem_dedupFirstAux rest (u :: seen) u).mp hm).2 (List.mem_cons_self u seen)

lemma mem_cleanPass_map_str : ∀ (l : List Str) (x : Str),
    x ∈ l → cleanRaw x = some x → x ∈ cleanPass (l.map .str)
  | y :: r, x, hx, hc => by
      rcases List.mem_cons.mp hx with h | h
      · subst h
        simp [cleanPass, hc]
      · exact List.mem_append_right _ (mem_cleanPass_map_str r x h hc)

lemma startsHU_ne_nil (t : Str) (h : startsHU t = true) : t ≠ [] := by
  intro he
  rw [he] at h
  exact absurd h (by decide)

lemma cleanRaw_self (x : Str) (hs : startsHU x = true) (hp : pyStrip x = x) :
    cleanRaw x = some x := by
  have hne : x.isEmpty = false := by
    simpa using startsHU_ne_nil x hs
  simp [cleanRaw, hp, hs, hne]

lemma mem_sanitizeStrs (l : List Str) (x : Str) (hx : x ∈ l)
    (hc : cleanRaw x = some x) : x ∈ sanitizeStrs l := by
  have hm := mem_cleanPass_map_str l x hx hc
  simpa [sanitizeStrs, sanitizeTrackerList, mem_dedupFirstAux] using hm

lemma readTrackerUrls_cons (u : Str) (rest : List Str) :
    readTrackerUrls (u :: rest) =
      if !u.isEmpty && startsHU u then pyStrip u :: readTrackerUrls rest
      else readTrackerUrls rest := rfl

lemma mem_readTrackerUrls : ∀ (raw : List Str) (t : Str),
    t ∈ raw → startsHU t = true → pyStrip t = t → t ∈ readTrackerUrls raw
  | u :: rest, t, ht, hs, hp => by
      rcases List.mem_cons.mp ht with h | h
      · subst h
        have hne : t.isEmpty = false := by
          simpa using startsHU_ne_nil t hs
        rw [readTrackerUrls_cons, hne, hs]
        rw [hp]
        exact List.mem_cons_self t _
      · have ih := mem_readTrackerUrls rest t h hs hp
        rcases hg : (!u.isEmpty && startsHU u) with _ | _
        · rw [readTrackerUrls_cons, hg]
          exact ih
        · rw [readTrackerUrls_cons, hg]
          exact List.mem_cons_of_mem _ ih

lemma concatLists_map_singleton : ∀ (l : List Str),
    concatLists (l.map fun u => [u]) = l
  | [] => rfl
  | u :: rest => by simp [concatLists, concatLists_map_singleton rest]

/-! ### Helper lemmas: magnet construction and content resolution -/

lemma foldl_pre (f : Str → Str → Str) (hf : ∀ a t, a <+: f a t) :
    ∀ (l : List Str) (acc : Str), acc <+: l.foldl f acc
  | [], acc => List.prefix_refl acc
  | t :: ts, acc => (hf acc t).trans (foldl_pre f hf ts (f acc t))

lemma buildMagnet_head (h : Str) (trackers : List Str) (name : Str) :
    magnetHead h <+: buildMagnet h trackers name := by
  refine List.IsPrefix.trans ?_ (foldl_pre _ (fun a t => by
    rw [List.append_assoc]
    exact List.prefix_append _ _) trackers _)
  unfold magnetHead
  split
  · rw [List.append_assoc]
    exact List.prefix_append _ _
  · exact List.prefix_refl _

lemma getTorrentContent_wf (env : Env) (st : ClientType) (meta : Meta) :
    contentWellFormed (getTorrentContent env st meta) meta.hash = true := by
  have hm : contentWellFormed
      (Content.magnet (buildMagnet meta.hash meta.trackers meta.name)) meta.hash = true := by
    simpa [contentWellFormed] using
      List.isPrefixOf_iff_prefix.mpr (buildMagnet_head meta.hash meta.trackers meta.name)
  cases st with
  | tr => simpa [getTorrentContent] using hm
  | qb =>
      rcases he : env.exportBytes meta.hash with _ | bs
      · simpa [getTorrentContent, he] using hm
      · rcases hb : bs.isEmpty with _ | _
        · simp [getTorrentContent, he, hb, contentWellFormed]
        · simpa [getTorrentContent, he, hb] using hm

lemma buildMagnet_ne_nil (h : Str) (trackers : List Str) (name : Str) :
    (buildMagnet h trackers name).isEmpty = false := by
  have hp := buildMagnet_head h trackers name
  have hlen := hp.length_le
  have hhead : (magnetHead h).length = 20 + h.length := by
    simp [magnetHead]
    omega
  cases hb : buildMagnet h trackers name with
  | nil =>
      rw [hb] at hlen
      rw [hhead] at hlen
      simp at hlen
  | cons c rest => rfl

lemma getTorrentContent_truthy (env : Env) (st : ClientType) (meta : Meta) :
    contentFalsy (getTorrentContent env st meta) = false := by
  cases st with
  | tr => simpa [getTorrentContent, contentFalsy] using
      buildMagnet_ne_nil meta.hash meta.trackers meta.name
  | qb =>
      rcases he : env.exportBytes meta.hash with _ | bs
      · simpa [getTorrentContent, he, contentFalsy] using
          buildMagnet_ne_nil meta.hash meta.trackers meta.name
      · rcases hb : bs.isEmpty with _ | _
        · simpa [getTorrentContent, he, hb, contentFalsy] using hb
        · simpa [getTorrentContent, he, hb, contentFalsy] using
            buildMagnet_ne_nil meta.hash meta.trackers meta.name

/-! ### Helper lemmas: shapes of `executeTransfer` results -/

lemma scenarioA_scenario (env : Env) (h : Str) (meta : Meta) (c : Content) :
    (scenarioA env h meta c).scenario = some .A := by
  unfold scenarioA
  split <;> rfl

lemma scenarioA_ok (env : Env) (h : Str) (meta : Meta) (c : Content) :
    (scenarioA env h meta c).ok = env.addOk meta c := by
  rcases ha : env.addOk meta c with _ | _ <;> simp [scenarioA, ha]

lemma scenarioA_ops (env : Env) (h : Str) (meta : Meta) (c : Content) :
    (scenarioA env h meta c).ops =
      Op.addTorrent meta c ::
        (if env.addOk meta c then
          (if !meta.unwantedFileIds.isEmpty && contentIsBytes c then
            syncUnwantedFiles h meta.unwantedFileIds
          else [])
        else []) := by
  rcases ha : env.addOk meta c with _ | _ <;> simp [scenarioA, ha]

lemma scenarioB_scenario (env : Env) (tt : ClientType) (h : Str)
    (missing ex : List Str) :
    (scenarioB env tt h missing ex).scenario = some .B := by
  cases tt <;> rfl

lemma scenarioA_ops_mem (env : Env) (h : Str) (meta : Meta) (c : Content)
    (o : Op) (ho : o ∈ (scenarioA env h meta c).ops) :
    o = Op.addTorrent meta c ∨ o = Op.setFilesSkip h meta.unwantedFileIds := by
  rw [scenarioA_ops] at ho
  rcases List.mem_cons.mp ho with rfl | ho
  · exact Or.inl rfl
  · refine Or.inr ?_
    split at ho
    · split at ho
      · unfold syncUnwantedFiles at ho
        split at ho
        · simp at ho
        · simpa using ho
      · simp at ho
    · simp at ho

lemma injectTrTrackers_ops (env : Env) (h : Str) (missing ex : List Str) :
    (injectTrTrackers env h missing ex).2 =
      Op.trTrackerListSet h ((sanitizeStrs (ex ++ missing)).map fun u => [u]) ::
        (if env.trListOk h ((sanitizeStrs (ex ++ missing)).map fun u => [u]) then []
         else if env.trAddAvail then [Op.trTrackerAdd h (sanitizeStrs missing)]
         else []) := by
  rcases h1 : env.trListOk h ((sanitizeStrs (ex ++ missing)).map fun u => [u]) with _ | _ <;>
    rcases h2 : env.trAddAvail with _ | _ <;>
      simp [injectTrTrackers, h1, h2]

lemma scenarioB_ops_mem (env : Env) (tt : ClientType) (h : Str)
    (missing ex : List Str) (o : Op) (ho : o ∈ (scenarioB env tt h missing ex).ops) :
    (∃ urls, o = Op.qbUpdateTrackers h urls) ∨
    (∃ tiers, o = Op.trTrackerListSet h tiers) ∨
    (∃ urls, o = Op.trTrackerAdd h urls) := by
  cases tt with
  | qb =>
      simp only [scenarioB, List.mem_singleton] at ho
      exact Or.inl ⟨_, ho⟩
  | tr =>
      simp only [scenarioB] at ho
      rw [injectTrTrackers_ops] at ho
      rcases List.mem_cons.mp ho with rfl | ho
      · exact Or.inr (Or.inl ⟨_, rfl⟩)
      · split at ho
        · simp at ho
        · split at ho
          · simp only [List.mem_singleton] at ho
            exact Or.inr (Or.inr ⟨_, ho⟩)
          · simp at ho

lemma execTransfer_ops_mem (env : Env) (tt : ClientType) (h : Str)
    (meta : Meta) (c : Content) (o : Op)
    (ho : o ∈ (executeTransfer env tt h meta c).ops) :
    o = Op.queryTarget h ∨ o = Op.addTorrent meta c ∨
    o = Op.setFilesSkip h meta.unwantedFileIds ∨
    (∃ urls, o = Op.qbUpdateTrackers h urls) ∨
    (∃ tiers, o = Op.trTrackerListSet h tiers) ∨
    (∃ urls, o = Op.trTrackerAdd h urls) := by
  rcases hq : env.queryError h with _ | _
  · rcases he : (env.queryResult h).isEmpty with _ | _
    · rcases hm : (missingTrackersOf meta.trackers
          (targetTrackerList env tt h (env.queryResult h))).isEmpty with _ | _
      · -- scenario B
        simp only [executeTransfer, hq, he, hm, Bool.not_false, if_true,
          Bool.false_eq_true, if_false] at ho
        rcases List.mem_cons.mp ho with rfl | ho
        · exact Or.inl rfl
        · rcases scenarioB_ops_mem env tt h _ _ o ho with h' | h' | h'
          · exact Or.inr (Or.inr (Or.inr (Or.inl h')))
          · exact Or.inr (Or.inr (Or.inr (Or.inr (Or.inl h'))))
          · exact Or.inr (Or.inr (Or.inr (Or.inr (Or.inr h'))))
      · -- scenario C
        simp only [executeTransfer, hq, he, hm, Bool.not_true,
          Bool.false_eq_true, if_false, List.mem_singleton] at ho
        exact Or.inl ho
    · -- scenario A
      simp only [executeTransfer, hq, he, Bool.false_eq_true, if_false,
        if_true] at ho
      rcases List.mem_cons.mp ho with rfl | ho
      · exact Or.inl rfl
      · rcases scenarioA_ops_mem env h meta c o ho with h' | h'
        · exact Or.inr (Or.inl h')
        · exact Or.inr (Or.inr (Or.inl h'))
  · simp only [executeTransfer, hq, if_true, List.mem_singleton] at ho
    exact Or.inl ho

/-- Every operation issued by `_execute_transfer` targets the target
downloader and is neither a pause nor a delete. -/
lemma execTransfer_ops_safe (env : Env) (tt : ClientType) (h : Str)
    (meta : Meta) (c : Content) (o : Op)
    (ho : o ∈ (executeTransfer env tt h meta c).ops) :
    o.onSource = false ∧ o.isDelete = false ∧ o.isStop = false := by
  rcases execTransfer_ops_mem env tt h meta c o ho with
    rfl | rfl | rfl | ⟨u, rfl⟩ | ⟨u, rfl⟩ | ⟨u, rfl⟩ <;>
    exact ⟨rfl, rfl, rfl⟩

lemma execTransfer_scenario_eq (env : Env) (tt : ClientType) (h : Str)
    (meta : Meta) (c : Content) :
    (executeTransfer env tt h meta c).scenario =
      if env.queryError h then none
      else if (env.queryResult h).isEmpty then some .A
      else if (missingTrackersOf meta.trackers
          (targetTrackerList env tt h (env.queryResult h))).isEmpty then some .C
      else some .B := by
  unfold executeTransfer
  rcases hq : env.queryError h with _ | _
  · rcases he : (env.queryResult h).isEmpty with _ | _
    · rcases hm : (missingTrackersOf meta.trackers
          (targetTrackerList env tt h (env.queryResult h))).isEmpty with _ | _
      · simp [hq, he, hm, scenarioB_scenario]
      · simp [hq, he, hm]
    · simp [hq, he, scenarioA_scenario]
  · simp [hq]

/-! ### Helper lemmas: shapes of `processSingle` results -/

lemma processSingle_failed_eq (cfg : Config) (env : Env) (st tt : ClientType)
    (t : Option Meta) (hist : History) (s : Stats) :
    (processSingle cfg env st tt t hist s).stats.failed =
      s.failed +
        (if (processSingle cfg env st tt t hist s).outcome.isFailedItem then 1 else 0) := by
  cases t with
  | none => simp [processSingle, ItemOutcome.isFailedItem]
  | some meta =>
      rcases hh : meta.hash.isEmpty with _ | _
      · rcases hl : (hist.lookup (lowerStr meta.hash)).isSome with _ | _
        · have hcf := getTorrentContent_truthy env st meta
          rcases hsc : (executeTransfer env tt (lowerStr meta.hash) meta
              (getTorrentContent env st meta)).scenario with _ | sc
          · rcases hok : (executeTransfer env tt (lowerStr meta.hash) meta
                (getTorrentContent env st meta)).ok with _ | _ <;>
              simp [processSingle, hh, hl, hcf, hsc, hok, ItemOutcome.isFailedItem]
          · rcases hok : (executeTransfer env tt (lowerStr meta.hash) meta
                (getTorrentContent env st meta)).ok with _ | _
            · simp [processSingle, hh, hl, hcf, hsc, hok, ItemOutcome.isFailedItem]
            · cases sc <;>
                rcases hcs : cfg.cleanSource with _ | _ <;>
                  simp [processSingle, hh, hl, hcf, hsc, hok, hcs,
                    ItemOutcome.isFailedItem]
        · simp [processSingle, hh, hl, ItemOutcome.isFailedItem]
      · simp [processSingle, hh, ItemOutcome.isFailedItem]

lemma processSingle_skipped_eq (cfg : Config) (env : Env) (st tt : ClientType)
    (t : Option Meta) (hist : History) (s : Stats) :
    (processSingle cfg env st tt t hist s).stats.skipped =
      s.skipped +
        (if (processSingle cfg env st tt t hist s).outcome = .done .C then 1 else 0) := by
  cases t with
  | none => simp [processSingle]
  | some meta =>
      rcases hh : meta.hash.isEmpty with _ | _
      · rcases hl : (hist.lookup (lowerStr meta.hash)).isSome with _ | _
        · have hcf := getTorrentContent_truthy env st meta
          rcases hsc : (executeTransfer env tt (lowerStr meta.hash) meta
              (getTorrentContent env st meta)).scenario with _ | sc
          · rcases hok : (executeTransfer env tt (lowerStr meta.hash) meta
                (getTorrentContent env st meta)).ok with _ | _ <;>
              simp [processSingle, hh, hl, hcf, hsc, hok]
          · rcases hok : (executeTransfer env tt (lowerStr meta.hash) meta
                (getTorrentContent env st meta)).ok with _ | _
            · simp [processSingle, hh, hl, hcf, hsc, hok]
            · cases sc <;>
                rcases hcs : cfg.cleanSource with _ | _ <;>
                  simp [processSingle, hh, hl, hcf, hsc, hok, hcs]
        · simp [processSingle, hh, hl]
      · simp [processSingle, hh]

lemma processSingle_hist_eq (cfg : Config) (env : Env) (st tt : ClientType)
    (t : Option Meta) (hist : History) (s : Stats) :
    (processSingle cfg env st tt t hist s).hist =
      (match (processSingle cfg env st tt t hist s).outcome with
       | .done sc =>
           (metaKey t, Record.mk (metaName t) sc env.now cfg.sourceId cfg.targetId) :: hist
       | _ => hist) := by
  cases t with
  | none => simp [processSingle]
  | some meta =>
      rcases hh : meta.hash.isEmpty with _ | _
      · rcases hl : (hist.lookup (lowerStr meta.hash)).isSome with _ | _
        · have hcf := getTorrentContent_truthy env st meta
          rcases hsc : (executeTransfer env tt (lowerStr meta.hash) meta
              (getTorrentContent env st meta)).scenario with _ | sc
          · rcases hok : (executeTransfer env tt (lowerStr meta.hash) meta
                (getTorrentContent env st meta)).ok with _ | _ <;>
              simp [processSingle, hh, hl, hcf, hsc, hok]
          · rcases hok : (executeTransfer env tt (lowerStr meta.hash) meta
                (getTorrentContent env st meta)).ok with _ | _
            · simp [processSingle, hh, hl, hcf, hsc, hok]
            · cases sc <;>
                rcases hcs : cfg.cleanSource with _ | _ <;>
                  simp [processSingle, hh, hl, hcf, hsc, hok, hcs, metaKey, metaName]
        · simp [processSingle, hh, hl]
      · simp [processSingle, hh]

lemma processSingle_done_fresh (cfg : Config) (env : Env) (st tt : ClientType)
    (t : Option Meta) (hist : History) (s : Stats)
    (hd : (processSingle cfg env st tt t hist s).outcome.isDone = true) :
    (hist.lookup (metaKey t)).isSome = false := by
  cases t with
  | none => simp [processSingle, ItemOutcome.isDone] at hd
  | some meta =>
      rcases hh : meta.hash.isEmpty with _ | _
      · rcases hl : (hist.lookup (lowerStr meta.hash)).isSome with _ | _
        · simpa [metaKey] using hl
        · simp [processSingle, hh, hl, ItemOutcome.isDone] at hd
      · simp [processSingle, hh, ItemOutcome.isDone] at hd

lemma processSingle_not_contentUnavail (cfg : Config) (env : Env)
    (st tt : ClientType) (t : Option Meta) (hist : History) (s : Stats) :
    ((processSingle cfg env st tt t hist s).outcome = .contentUnavail) = False := by
  cases t with
  | none => simp [processSingle]
  | some meta =>
      rcases hh : meta.hash.isEmpty with _ | _
      · rcases hl : (hist.lookup (lowerStr meta.hash)).isSome with _ | _
        · have hcf := getTorrentContent_truthy env st meta
          rcases hsc : (executeTransfer env tt (lowerStr meta.hash) meta
              (getTorrentContent env st meta)).scenario with _ | sc
          · rcases hok : (executeTransfer env tt (lowerStr meta.hash) meta
                (getTorrentContent env st meta)).ok with _ | _ <;>
              simp [processSingle, hh, hl, hcf, hsc, hok]
          · rcases hok : (executeTransfer env tt (lowerStr meta.hash) meta
                (getTorrentContent env st meta)).ok with _ | _
            · simp [processSingle, hh, hl, hcf, hsc, hok]
            · cases sc <;>
                rcases hcs : cfg.cleanSource with _ | _ <;>
                  simp [processSingle, hh, hl, hcf, hsc, hok, hcs]
        · simp [processSingle, hh, hl]
      · simp [processSingle, hh]

lemma processSingle_ops_split (cfg : Config) (env : Env) (st tt : ClientType)
    (t : Option Meta) (hist : History) (s : Stats) :
    (processSingle cfg env st tt t hist s).ops = [] ∨
      (∃ meta, t = some meta ∧
        (hist.lookup (lowerStr meta.hash)).isSome = false ∧
        (processSingle cfg env st tt t hist s).ops =
          (executeTransfer env tt (lowerStr meta.hash) meta
              (getTorrentContent env st meta)).ops ++
            (if (processSingle cfg env st tt t hist s).outcome.isDoneAB
                && cfg.cleanSource then
              [Op.stopTorrents (lowerStr meta.hash)]
            else [])) := by
  cases t with
  | none => exact Or.inl rfl
  | some meta =>
      rcases hh : meta.hash.isEmpty with _ | _
      · rcases hl : (hist.lookup (lowerStr meta.hash)).isSome with _ | _
        · refine Or.inr ⟨meta, rfl, hl, ?_⟩
          have hcf := getTorrentContent_truthy env st meta
          rcases hsc : (executeTransfer env tt (lowerStr meta.hash) meta
              (getTorrentContent env st meta)).scenario with _ | sc
          · rcases hok : (executeTransfer env tt (lowerStr meta.hash) meta
                (getTorrentContent env st meta)).ok with _ | _ <;>
              simp [processSingle, hh, hl, hcf, hsc, hok, ItemOutcome.isDoneAB]
          · rcases hok : (executeTransfer env tt (lowerStr meta.hash) meta
                (getTorrentContent env st meta)).ok with _ | _
            · simp [processSingle, hh, hl, hcf, hsc, hok, ItemOutcome.isDoneAB]
            · cases sc <;>
                rcases hcs : cfg.cleanSource with _ | _ <;>
                  simp [processSingle, hh, hl, hcf, hsc, hok, hcs,
                    ItemOutcome.isDoneAB]
        · exact Or.inl (by simp [processSingle, hh, hl])
      · exact Or.inl (by simp [processSingle, hh])

/-- Every operation processing one torrent issues is either an operation
of `_execute_transfer` (all directed at the target) or the source pause. -/
lemma processSingle_ops_safe (cfg : Config) (env : Env) (st tt : ClientType)
    (t : Option Meta) (hist : History) (s : Stats) (o : Op)
    (ho : o ∈ (processSingle cfg env st tt t hist s).ops) :
    o.isDelete = false ∧ o.onSource = o.isStop := by
  rcases processSingle_ops_split cfg env st tt t hist s with hsplit | ⟨meta, _, _, hsplit⟩
  · rw [hsplit] at ho
    simp at ho
  · rw [hsplit] at ho
    rcases List.mem_append.mp ho with ho | ho
    · rcases execTransfer_ops_safe env tt _ meta _ o ho with ⟨h1, h2, h3⟩
      exact ⟨h2, by rw [h1, h3]⟩
    · split at ho
      · simp only [List.mem_singleton] at ho
        subst ho
        exact ⟨rfl, rfl⟩
      · simp at ho

lemma execTransfer_no_sourceOps (env : Env) (tt : ClientType) (h : Str)
    (meta : Meta) (c : Content) :
    (executeTransfer env tt h meta c).ops.filter (fun o => o.onSource) = [] :=
  List.filter_eq_nil_iff.mpr fun o ho => by
    simp [(execTransfer_ops_safe env tt h meta c o ho).1]

lemma processSingle_sourceOps (cfg : Config) (env : Env) (st tt : ClientType)
    (t : Option Meta) (hist : History) (s : Stats) :
    (processSingle cfg env st tt t hist s).ops.filter (fun o => o.onSource) =
      (if (processSingle cfg env st tt t hist s).outcome.isDoneAB
          && cfg.cleanSource then
        [Op.stopTorrents (metaKey t)]
      else []) := by
  cases t with
  | none => simp [processSingle, ItemOutcome.isDoneAB]
  | some meta =>
      rcases hh : meta.hash.isEmpty with _ | _
      · rcases hl : (hist.lookup (lowerStr meta.hash)).isSome with _ | _
        · have hcf := getTorrentContent_truthy env st meta
          have hfil := execTransfer_no_sourceOps env tt (lowerStr meta.hash) meta
            (getTorrentContent env st meta)
          have hfil2 : ∀ o ∈ (executeTransfer env tt (lowerStr meta.hash) meta
              (getTorrentContent env st meta)).ops, o.onSource = false :=
            fun o ho => (execTransfer_ops_safe env tt (lowerStr meta.hash) meta
              (getTorrentContent env st meta) o ho).1
          rcases hsc : (executeTransfer env tt (lowerStr meta.hash) meta
              (getTorrentContent env st meta)).scenario with _ | sc
          · rcases hok : (executeTransfer env tt (lowerStr meta.hash) meta
                (getTorrentContent env st meta)).ok with _ | _ <;>
              (simp [processSingle, hh, hl, hcf, hsc, hok, hfil, hfil2,
                ItemOutcome.isDoneAB]) <;> exact hfil2
          · rcases hok : (executeTransfer env tt (lowerStr meta.hash) meta
                (getTorrentContent env st meta)).ok with _ | _
            · (simp [processSingle, hh, hl, hcf, hsc, hok, hfil, hfil2,
                ItemOutcome.isDoneAB]) <;> exact hfil2
            · cases sc <;>
                rcases hcs : cfg.cleanSource with _ | _ <;>
                  ((simp [processSingle, hh, hl, hcf, hsc, hok, hcs, hfil, hfil2,
                    ItemOutcome.isDoneAB, metaKey, Op.onSource]) <;> exact hfil2)
        · simp [processSingle, hh, hl, ItemOutcome.isDoneAB]
      · simp [processSingle, hh, ItemOutcome.isDoneAB]

lemma processSingle_lookup_isSome (cfg : Config) (env : Env) (st tt : ClientType)
    (t : Option Meta) (hist : History) (s : Stats) (k : Str)
    (hk : (hist.lookup k).isSome = true) :
    (((processSingle cfg env st tt t hist s).hist).lookup k).isSome = true := by
  rw [processSingle_hist_eq]
  rcases ho : (processSingle cfg env st tt t hist s).outcome with _ | _ | _ | _ | sc
  · exact hk
  · exact hk
  · exact hk
  · exact hk
  · show ((((metaKey t,
        Record.mk (metaName t) sc env.now cfg.sourceId cfg.targetId)) :: hist).lookup k).isSome = true
    rw [List.lookup_cons]
    rcases hb : k == metaKey t with _ | _
    · simpa using hk
    · simp

lemma processSingle_lookup_preserve (cfg : Config) (env : Env) (st tt : ClientType)
    (t : Option Meta) (hist : History) (s : Stats) (k : Str)
    (hk : (hist.lookup k).isSome = true) :
    ((processSingle cfg env st tt t hist s).hist).lookup k = hist.lookup k := by
  rw [processSingle_hist_eq]
  rcases ho : (processSingle cfg env st tt t hist s).outcome with _ | _ | _ | _ | sc
  · rfl
  · rfl
  · rfl
  · rfl
  · have hfresh : (hist.lookup (metaKey t)).isSome = false :=
      processSingle_done_fresh cfg env st tt t hist s (by rw [ho]; rfl)
    show (((metaKey t,
        Record.mk (metaName t) sc env.now cfg.sourceId cfg.targetId) :: hist).lookup k) = hist.lookup k
    rw [List.lookup_cons]
    rcases hb : k == metaKey t with _ | _
    · rfl
    · have : k = metaKey t := eq_of_beq hb
      rw [this] at hk
      rw [hk] at hfresh
      cases hfresh

lemma countStop_append (h0 : Str) (l1 l2 : List Op) :
    countStop h0 (l1 ++ l2) = countStop h0 l1 + countStop h0 l2 := by
  simp [countStop, List.filter_append]

lemma countStop_zero_of_no_stop (h0 : Str) (l : List Op)
    (hl : ∀ o ∈ l, o.isStop = false) : countStop h0 l = 0 := by
  have : l.filter (fun o => o == Op.stopTorrents h0) = [] :=
    List.filter_eq_nil_iff.mpr fun o ho hbeq => by
      have : o = Op.stopTorrents h0 := eq_of_beq hbeq
      subst this
      exact absurd (hl _ ho) (by simp [Op.isStop])
  simp [countStop, this]

lemma processSingle_stop_cases (cfg : Config) (env : Env) (st tt : ClientType)
    (t : Option Meta) (hist : History) (s : Stats) (h0 : Str) :
    countStop h0 (processSingle cfg env st tt t hist s).ops = 0 ∨
      (countStop h0 (processSingle cfg env st tt t hist s).ops = 1 ∧
        (hist.lookup h0).isSome = false ∧
        (((processSingle cfg env st tt t hist s).hist).lookup h0).isSome = true) := by
  rcases processSingle_ops_split cfg env st tt t hist s with hsplit | ⟨meta, ht, hl, hsplit⟩
  · rw [hsplit]
    exact Or.inl rfl
  · subst ht
    rw [hsplit, countStop_append]
    have hz : countStop h0 (executeTransfer env tt (lowerStr meta.hash) meta
        (getTorrentContent env st meta)).ops = 0 :=
      countStop_zero_of_no_stop h0 _ fun o ho =>
        (execTransfer_ops_safe env tt _ meta _ o ho).2.2
    rw [hz]
    rcases hab : ((processSingle cfg env st tt (some meta) hist s).outcome.isDoneAB
        && cfg.cleanSource) with _ | _
    · simp [hab, countStop]
    · rw [if_pos rfl]
      by_cases hk : h0 = lowerStr meta.hash
      · subst hk
        refine Or.inr ⟨by simp [countStop], by simpa [metaKey] using hl, ?_⟩
        have hdone : (processSingle cfg env st tt (some meta) hist s).outcome.isDone
            = true := by
          rcases ho : (processSingle cfg env st tt (some meta) hist s).outcome
            with _ | _ | _ | _ | sc <;> rw [ho] at hab <;>
            simp_all [ItemOutcome.isDoneAB, ItemOutcome.isDone]
        rw [processSingle_hist_eq]
        rcases ho : (processSingle cfg env st tt (some meta) hist s).outcome
          with _ | _ | _ | _ | sc <;> rw [ho] at hdone <;>
          simp_all [ItemOutcome.isDone, metaKey]
      · refine Or.inl ?_
        have hbf : (Op.stopTorrents (lowerStr meta.hash) == Op.stopTorrents h0) = false := by
          rcases hbeq : (Op.stopTorrents (lowerStr meta.hash) == Op.stopTorrents h0)
            with _ | _
          · rfl
          · have := eq_of_beq hbeq
            simp only [Op.stopTorrents.injEq] at this
            exact absurd this.symm hk
        simp [countStop, hbf]

/-- `_process_single_torrent` when the target query errors: the torrent is
counted failed, the ledger is untouched, and only the query was issued. -/
lemma processSingle_queryError (cfg : Config) (env : Env) (st tt : ClientType)
    (meta : Meta) (hist : History) (s : Stats)
    (hh : meta.hash.isEmpty = false)
    (hl : (hist.lookup (lowerStr meta.hash)).isSome = false)
    (hq : env.queryError (lowerStr meta.hash) = true) :
    processSingle cfg env st tt (some meta) hist s =
      ⟨hist,
       { s with failed := s.failed + 1,
                details := s.details ++ ["[失败] ".toList ++ meta.name] },
       [Op.queryTarget (lowerStr meta.hash)], .execFailed⟩ := by
  have hcf := getTorrentContent_truthy env st meta
  have hr : executeTransfer env tt (lowerStr meta.hash) meta
      (getTorrentContent env st meta) =
      ⟨none, false, [Op.queryTarget (lowerStr meta.hash)]⟩ := by
    simp [executeTransfer, hq]
  simp [processSingle, hh, hl, hcf, hr]

/-! ### Helper lemmas: the run loop -/

lemma runLoop_cons (cfg : Config) (env : Env) (st tt : ClientType)
    (t : Option Meta) (ts : List (Option Meta)) (hist : History) (s : Stats) :
    runLoop cfg env st tt (t :: ts) hist s =
      ⟨(runLoop cfg env st tt ts (processSingle cfg env st tt t hist s).hist
          (processSingle cfg env st tt t hist s).stats).hist,
       (runLoop cfg env st tt ts (processSingle cfg env st tt t hist s).hist
          (processSingle cfg env st tt t hist s).stats).stats,
       (processSingle cfg env st tt t hist s).ops ++
         (runLoop cfg env st tt ts (processSingle cfg env st tt t hist s).hist
            (processSingle cfg env st tt t hist s).stats).ops⟩ := rfl

lemma runLoop_lookup_isSome (cfg : Config) (env : Env) (st tt : ClientType)
    (k : Str) :
    ∀ (ts : List (Option Meta)) (hist : History) (s : Stats),
      (hist.lookup k).isSome = true →
      (((runLoop cfg env st tt ts hist s).hist).lookup k).isSome = true
  | [], hist, s, hk => hk
  | t :: ts, hist, s, hk => by
      rw [runLoop_cons]
      exact runLoop_lookup_isSome cfg env st tt k ts _ _
        (processSingle_lookup_isSome cfg env st tt t hist s k hk)

lemma runLoop_stop_zero (cfg : Config) (env : Env) (st tt : ClientType)
    (h0 : Str) :
    ∀ (ts : List (Option Meta)) (hist : History) (s : Stats),
      (hist.lookup h0).isSome = true →
      countStop h0 (runLoop cfg env st tt ts hist s).ops = 0
  | [], hist, s, hk => rfl
  | t :: ts, hist, s, hk => by
      rw [runLoop_cons]
      show countStop h0 ((processSingle cfg env st tt t hist s).ops ++ _) = 0
      rw [countStop_append]
      rcases processSingle_stop_cases cfg env st tt t hist s h0 with hz | ⟨_, hfresh, _⟩
      · rw [hz, runLoop_stop_zero cfg env st tt h0 ts _ _
          (processSingle_lookup_isSome cfg env st tt t hist s h0 hk)]
      · rw [hk] at hfresh
        cases hfresh

lemma runLoop_stop_le_one (cfg : Config) (env : Env) (st tt : ClientType)
    (h0 : Str) :
    ∀ (ts : List (Option Meta)) (hist : History) (s : Stats),
      countStop h0 (runLoop cfg env st tt ts hist s).ops ≤ 1
  | [], hist, s => by simp [runLoop, countStop]
  | t :: ts, hist, s => by
      rw [runLoop_cons]
      show countStop h0 ((processSingle cfg env st tt t hist s).ops ++ _) ≤ 1
      rw [countStop_append]
      rcases processSingle_stop_cases cfg env st tt t hist s h0 with hz | ⟨h1, _, hpost⟩
      · rw [hz]
        simpa using runLoop_stop_le_one cfg env st tt h0 ts _ _
      · rw [h1, runLoop_stop_zero cfg env st tt h0 ts _ _ hpost]

lemma runLoop_ops_safe (cfg : Config) (env : Env) (st tt : ClientType) :
    ∀ (ts : List (Option Meta)) (hist : History) (s : Stats) (o : Op),
      o ∈ (runLoop cfg env st tt ts hist s).ops →
      o.isDelete = false ∧ o.onSource = o.isStop
  | [], hist, s, o, ho => by simp [runLoop] at ho
  | t :: ts, hist, s, o, ho => by
      rw [runLoop_cons] at ho
      rcases List.mem_append.mp ho with ho | ho
      · exact processSingle_ops_safe cfg env st tt t hist s o ho
      · exact runLoop_ops_safe cfg env st tt ts _ _ o ho

/-! ### Helper lemmas: tracker-state monotonicity -/

lemma applyTrackerOp_qbUpdate (env : Env) (h : Str) (cur : List Str)
    (h' : Str) (urls : List Str) :
    applyTrackerOp env h cur (Op.qbUpdateTrackers h' urls) =
      if h' = h ∧ env.qbUpdateOk h' urls then cur ++ urls else cur := rfl

lemma applyTrackerOp_listSet (env : Env) (h : Str) (cur : List Str)
    (h' : Str) (tiers : List (List Str)) :
    applyTrackerOp env h cur (Op.trTrackerListSet h' tiers) =
      if h' = h ∧ env.trListOk h' tiers then concatLists tiers else cur := rfl

lemma applyTrackerOp_trAdd (env : Env) (h : Str) (cur : List Str)
    (h' : Str) (urls : List Str) :
    applyTrackerOp env h cur (Op.trTrackerAdd h' urls) =
      if h' = h ∧ env.trAddOk h' urls then cur ++ urls else cur := rfl

lemma applyTrackerOp_neutral (env : Env) (h : Str) (cur : List Str) (o : Op)
    (ho : o.trackerNeutral = true) : applyTrackerOp env h cur o = cur := by
  cases o <;> first
    | rfl
    | simp [Op.trackerNeutral] at ho

lemma applyTrackerOps_neutral (env : Env) (h : Str) :
    ∀ (ops : List Op) (cur : List Str),
      (∀ o ∈ ops, o.trackerNeutral = true) → applyTrackerOps env h cur ops = cur
  | [], cur, _ => rfl
  | o :: ops, cur, hall => by
      rw [applyTrackerOps,
        applyTrackerOp_neutral env h cur o (hall o (List.mem_cons_self o ops))]
      exact applyTrackerOps_neutral env h ops cur
        fun o' ho' => hall o' (List.mem_cons_of_mem o ho')

/-- Both tiers of `_inject_tr_trackers` keep every current tracker that
survives sanitization of the combined list: the bulk tier-rebuild replaces
the list with the sanitized union, while the fallback only appends. -/
lemma injectTr_keeps (env : Env) (h : Str) (missing ex cur : List Str) (t : Str)
    (ht : t ∈ cur) (hkeep : t ∈ sanitizeStrs (ex ++ missing)) :
    t ∈ applyTrackerOps env h cur (injectTrTrackers env h missing ex).2 := by
  rw [injectTrTrackers_ops]
  rcases hlo : env.trListOk h ((sanitizeStrs (ex ++ missing)).map fun u => [u])
    with _ | _
  · rw [if_neg Bool.false_ne_true]
    have hset : applyTrackerOp env h cur
        (Op.trTrackerListSet h ((sanitizeStrs (ex ++ missing)).map fun u => [u]))
          = cur := by
      rw [applyTrackerOp_listSet, if_neg]
      rintro ⟨-, hok⟩
      rw [hlo] at hok
      cases hok
    rcases hav : env.trAddAvail with _ | _
    · rw [if_neg Bool.false_ne_true, applyTrackerOps, hset, applyTrackerOps]
      exact ht
    · rw [if_pos rfl, applyTrackerOps, hset, applyTrackerOps, applyTrackerOps,
        applyTrackerOp_trAdd]
      split
      · exact List.mem_append_left _ ht
      · exact ht
  · rw [if_pos rfl, applyTrackerOps, applyTrackerOps, applyTrackerOp_listSet,
      if_pos ⟨rfl, hlo⟩, concatLists_map_singleton]
    exact hkeep

/-- A clean tracker of the pre-run target state (starts with `http`/`udp`
and carries no surrounding whitespace) is still present after the
operations of `_execute_transfer` are applied to the target state. -/
lemma execTransfer_keeps_clean_trackers (env : Env) (tt : ClientType)
    (h : Str) (meta : Meta) (content : Content) (t : Str)
    (ht : t ∈ preTrackerState env tt h)
    (hs : startsHU t = true) (hp : pyStrip t = t) :
    t ∈ applyTrackerOps env h (preTrackerState env tt h)
          (executeTransfer env tt h meta content).ops := by
  have hq1 : applyTrackerOp env h (preTrackerState env tt h) (Op.queryTarget h) =
      preTrackerState env tt h := rfl
  rcases hq : env.queryError h with _ | _
  · rcases he : (env.queryResult h).isEmpty with _ | _
    · rcases hm : (missingTrackersOf meta.trackers
          (targetTrackerList env tt h (env.queryResult h))).isEmpty with _ | _
      · -- scenario B
        have hops : (executeTransfer env tt h meta content).ops =
            Op.queryTarget h ::
              (scenarioB env tt h
                (missingTrackersOf meta.trackers
                  (targetTrackerList env tt h (env.queryResult h)))
                (targetTrackerList env tt h (env.queryResult h))).ops := by
          simp [executeTransfer, hq, he, hm]
        rw [hops, applyTrackerOps, hq1]
        cases tt with
        | qb =>
            show t ∈ applyTrackerOps env h (preTrackerState env .qb h)
              [Op.qbUpdateTrackers h _]
            rw [applyTrackerOps, applyTrackerOps, applyTrackerOp_qbUpdate]
            split
            · exact List.mem_append_left _ ht
            · exact ht
        | tr =>
            show t ∈ applyTrackerOps env h (preTrackerState env .tr h)
              (injectTrTrackers env h
                (missingTrackersOf meta.trackers
                  (targetTrackerList env .tr h (env.queryResult h)))
                (targetTrackerList env .tr h (env.queryResult h))).2
            refine injectTr_keeps env h _ _ _ t ht ?_
            have htex : t ∈ targetTrackerList env .tr h (env.queryResult h) := by
              unfold targetTrackerList
              exact mem_readTrackerUrls _ t ht hs hp
            exact mem_sanitizeStrs _ t (List.mem_append_left _ htex)
              (cleanRaw_self t hs hp)
      · -- scenario C: only the query is issued
        have hops : (executeTransfer env tt h meta content).ops =
            [Op.queryTarget h] := by
          simp [executeTransfer, hq, he, hm]
        rw [hops, applyTrackerOps, hq1, applyTrackerOps]
        exact ht
    · -- scenario A: the add and file-sync calls leave tracker state alone
      have hops : (executeTransfer env tt h meta content).ops =
          Op.queryTarget h :: (scenarioA env h meta content).ops := by
        simp [executeTransfer, hq, he]
      rw [hops, applyTrackerOps, hq1,
        applyTrackerOps_neutral env h _ _ fun o ho => by
          rcases scenarioA_ops_mem env h meta content o ho with rfl | rfl <;> rfl]
      exact ht
  · -- target query error
    have hops : (executeTransfer env tt h meta content).ops =
        [Op.queryTarget h] := by
      simp [executeTransfer, hq]
    rw [hops, applyTrackerOps, hq1, applyTrackerOps]
    exact ht

lemma bool_eq_of_iff (a b : Bool) (h : a = true ↔ b = true) : a = b := by
  rcases a with _ | _ <;> rcases b with _ | _ <;> simp_all

/-! ### Concrete inputs used by witnesses and counterexamples -/

/-! ### Claim theorems -/

/-- C4: with no exportable torrent-file bytes (the export raises, or
returns empty bytes), content resolution for hash `abc123`, name
`Example` and the two given trackers produces exactly the magnet URI
`magnet:?xt=urn:btih:abc123&dn=Example&tr=http%3A%2F%2Ftr1.example%2Fannounce&tr=udp%3A%2F%2Ftr2.example%3A80`:
`xt` first, `dn` only because the name is non-empty, then one
percent-encoded `tr` component per tracker in order. -/
theorem C4_magnet_construction :
    getTorrentContent baseEnv .qb sampleMeta =
      .magnet ("magnet:?xt=urn:btih:abc123&dn=Example" ++
        "&tr=http%3A%2F%2Ftr1.example%2Fannounce" ++
        "&tr=udp%3A%2F%2Ftr2.example%3A80").toList ∧
    getTorrentContent { baseEnv with exportBytes := fun _ => some [] } .qb
        sampleMeta =
      .magnet ("magnet:?xt=urn:btih:abc123&dn=Example" ++
        "&tr=http%3A%2F%2Ftr1.example%2Fannounce" ++
        "&tr=udp%3A%2F%2Ftr2.example%3A80").toList ∧
    buildMagnet sampleMeta.hash sampleMeta.trackers sampleMeta.name =
      ("magnet:?xt=urn:btih:abc123&dn=Example" ++
        "&tr=http%3A%2F%2Ftr1.example%2Fannounce" ++
        "&tr=udp%3A%2F%2Ftr2.example%3A80").toList := by
  refine ⟨by decide, by decide, by decide⟩

/-- C5 counterexample: the entry `httpx://a` has scheme `httpx`, which is
none of http, https or udp, yet sanitization keeps it — the code filters
by the literal string prefixes `http`/`udp`, not by URL scheme. -/
theorem C5_scheme_counterexample :
    sanitizeTrackerList [.str "httpx://a".toList] = ["httpx://a".toList] ∧
    specAllowedScheme "httpx://a".toList = false := by
  refine ⟨by decide, by decide⟩

/-- C5 (amended): sanitization flattens nested tiers, trims, drops empty
entries and entries that do not start with the literal prefix `http` or
`udp` (this keeps exactly the http/https/udp URLs of the example, but
would also keep other strings with those prefixes such as `httpx://…`),
and removes duplicates preserving first-seen order: the output is
duplicate-free, is a subsequence of the flattened-trimmed-filtered pass,
has exactly its members, and the example input sanitizes to
`["http://a", "udp://c"]`. -/
theorem C5_sanitize :
    (∀ l, (sanitizeTrackerList l).Nodup) ∧
    (∀ l, List.Sublist (sanitizeTrackerList l) (cleanPass l)) ∧
    (∀ l t, (sanitizeTrackerList l).contains t = (cleanPass l).contains t) ∧
    sanitizeTrackerList c5Input = ["http://a".toList, "udp://c".toList] := by
  refine ⟨fun l => dedupFirstAux_nodup _ _, fun l => dedupFirstAux_sublist _ _,
    fun l t => ?_, by decide⟩
  refine bool_eq_of_iff _ _ ?_
  rw [contains_iff_memStr, contains_iff_memStr, sanitizeTrackerList,
    mem_dedupFirstAux]
  simp

/-- C2: for a torrent not yet in the ledger, classification against the
current target state yields exactly one of three outcomes — scenario A
when the target has no torrent with the hash, B when the hash is present
and the exact-string set difference source-minus-target is non-empty, C
when it is present and the difference is empty; the difference is empty
precisely when every source tracker is a target tracker (exact string
equality), and a ledgered hash is never classified. -/
theorem C2_classification :
    (∀ env tt h meta content,
      (executeTransfer env tt h meta content).scenario =
        if env.queryError h then none
        else if (env.queryResult h).isEmpty then some .A
        else if (missingTrackersOf meta.trackers
            (targetTrackerList env tt h (env.queryResult h))).isEmpty then some .C
        else some .B) ∧
    (∀ source target : List Str, (missingTrackersOf source target).isEmpty =
        source.all fun t => target.contains t) ∧
    (∀ cfg env st tt meta hist s, meta.hash.isEmpty = false →
      (hist.lookup (lowerStr meta.hash)).isSome = true →
      (processSingle cfg env st tt (some meta) hist s).outcome = .ledgerHit) := by
  refine ⟨fun env tt h meta content => execTransfer_scenario_eq env tt h meta content,
    fun source target => ?_, fun cfg env st tt meta hist s hh hl => ?_⟩
  · refine bool_eq_of_iff _ _ ?_
    rw [List.isEmpty_iff, List.all_eq_true]
    constructor
    · intro hnil t htm
      by_cases hc : target.contains t
      · exact hc
      · exfalso
        have hcf : target.contains t = false := by
          rcases hcb : target.contains t with _ | _
          · rfl
          · exact absurd hcb hc
        have hmt : t ∈ missingTrackersOf source target := by
          rw [missingTrackersOf, mem_dedupFirstAux]
          exact ⟨List.mem_filter.mpr ⟨htm, by rw [hcf]; rfl⟩, List.not_mem_nil t⟩
        rw [hnil] at hmt
        exact List.not_mem_nil t hmt
    · intro hall
      rw [missingTrackersOf]
      rw [List.eq_nil_iff_forall_not_mem]
      intro t htm
      rw [mem_dedupFirstAux] at htm
      rcases List.mem_filter.mp htm.1 with ⟨hts, hneg⟩
      rw [hall t hts] at hneg
      cases hneg
  · simp [processSingle, hh, hl]

theorem C2_classification_witness :
    (sampleMeta.hash.isEmpty = false ∧
      ((c2Hist.lookup (lowerStr sampleMeta.hash)).isSome = true)) ∧
    (processSingle baseCfg baseEnv .qb .tr (some sampleMeta) c2Hist
        emptyStats).outcome = .ledgerHit :=
  ⟨⟨by decide, by decide⟩,
    C2_classification.2.2 baseCfg baseEnv .qb .tr sampleMeta c2Hist emptyStats
      (by decide) (by decide)⟩

/-- C10: content resolution is total for every torrent: it never yields a
falsy value (the bytes branch requires non-empty bytes and the magnet
fallback always begins with `magnet:?xt=urn:btih:` followed by the hash),
so the content-unavailable failure branch of the per-torrent processing
is unreachable and that failure is never counted. -/
theorem C10_content_resolution_total :
    (∀ env st meta, contentFalsy (getTorrentContent env st meta) = false) ∧
    (∀ env st meta,
      contentWellFormed (getTorrentContent env st meta) meta.hash = true) ∧
    (∀ cfg env st tt t hist s,
      ((processSingle cfg env st tt t hist s).outcome = .contentUnavail) = False) :=
  ⟨fun env st meta => getTorrentContent_truthy env st meta,
   fun env st meta => getTorrentContent_wf env st meta,
   fun cfg env st tt t hist s => processSingle_not_contentUnavail cfg env st tt t hist s⟩

/-- C9: in scenario A, the file-priority-skip call is issued exactly once,
with exactly the source's unwanted indices, precisely when the added
content is raw torrent-file bytes, the unwanted-index list is non-empty,
and the add succeeded; in particular with raw bytes and indices `[2, 5]`
the skip call carries exactly `[2, 5]`, while with magnet content it is
never issued. -/
theorem C9_partial_download_sync :
    (∀ env h meta content,
      (scenarioA env h meta content).ops.filter (fun o => o.isSetFiles) =
        if env.addOk meta content && contentIsBytes content
            && !meta.unwantedFileIds.isEmpty then
          [Op.setFilesSkip h meta.unwantedFileIds]
        else []) ∧
    ((scenarioA baseEnv "abc123".toList
        { sampleMeta with unwantedFileIds := [2, 5] } (.bytes [7])).ops.filter
          (fun o => o.isSetFiles) =
      [Op.setFilesSkip "abc123".toList [2, 5]]) ∧
    ((scenarioA baseEnv "abc123".toList
        { sampleMeta with unwantedFileIds := [2, 5] }
        (.magnet "m".toList)).ops.filter (fun o => o.isSetFiles) = []) := by
  refine ⟨fun env h meta content => ?_, by decide, by decide⟩
  rw [scenarioA_ops]
  rcases ha : env.addOk meta content with _ | _
  · simp [Op.isSetFiles]
  · rcases hb : contentIsBytes content with _ | _ <;>
      rcases hu : meta.unwantedFileIds.isEmpty with _ | _ <;>
        simp [syncUnwantedFiles, Op.isSetFiles, hb, hu]

/-- C1: across every run, no issued operation is a delete (against either
endpoint) and every operation directed at the source is the pause call;
per processed torrent the source-directed operations are exactly one pause
when (and only when) the outcome is a successful scenario A or B and
pausing is configured; and over a whole run the pause is issued at most
once per torrent hash. -/
theorem C1_no_destructive_operations :
    (∀ cfg env st tt ts hist,
      (doTransfer cfg env st tt ts hist).ops.all
        (fun o => !o.isDelete && (o.onSource == o.isStop)) = true) ∧
    (∀ cfg env st tt t hist s,
      (processSingle cfg env st tt t hist s).ops.filter (fun o => o.onSource) =
        if (processSingle cfg env st tt t hist s).outcome.isDoneAB
            && cfg.cleanSource then
          [Op.stopTorrents (metaKey t)]
        else []) ∧
    (∀ cfg env st tt ts hist h0,
      countStop h0 (doTransfer cfg env st tt ts hist).ops ≤ 1) := by
  refine ⟨fun cfg env st tt ts hist => ?_,
    fun cfg env st tt t hist s => processSingle_sourceOps cfg env st tt t hist s,
    fun cfg env st tt ts hist h0 => ?_⟩
  · rw [List.all_eq_true]
    intro o ho
    by_cases hid : cfg.sourceId = cfg.targetId
    · simp [doTransfer, hid] at ho
    · rcases ts with _ | ⟨_ | ⟨t, l⟩⟩
      · simp [doTransfer, hid] at ho
      · simp [doTransfer, hid] at ho
      · have hro : o ∈ (runLoop cfg env st tt (t :: l) hist emptyStats).ops := by
          simpa [doTransfer, hid] using ho
        rcases runLoop_ops_safe cfg env st tt (t :: l) hist emptyStats o hro
          with ⟨h1, h2⟩
        simp [h1, h2]
  · by_cases hid : cfg.sourceId = cfg.targetId
    · simp [doTransfer, hid, countStop]
    · rcases ts with _ | ⟨_ | ⟨t, l⟩⟩
      · simp [doTransfer, hid, countStop]
      · simp [doTransfer, hid, countStop]
      · have : doTransfer cfg env st tt (some (t :: l)) hist =
            runLoop cfg env st tt (t :: l) hist emptyStats := by
          simp [doTransfer, hid]
        rw [this]
        exact runLoop_stop_le_one cfg env st tt h0 (t :: l) hist emptyStats

lemma execTransfer_C_ops (env : Env) (tt : ClientType) (h : Str)
    (meta : Meta) (c : Content)
    (hsc : (executeTransfer env tt h meta c).scenario = some .C) :
    (executeTransfer env tt h meta c).ops = [Op.queryTarget h] := by
  rw [execTransfer_scenario_eq] at hsc
  rcases hq : env.queryError h with _ | _
  · rcases he : (env.queryResult h).isEmpty with _ | _
    · rcases hm : (missingTrackersOf meta.trackers
          (targetTrackerList env tt h (env.queryResult h))).isEmpty with _ | _
      · simp [hq, he, hm] at hsc
      · simp [executeTransfer, hq, he, hm]
    · simp [hq, he] at hsc
  · simp [hq] at hsc

lemma processSingle_C_ops (cfg : Config) (env : Env) (st tt : ClientType)
    (t : Option Meta) (hist : History) (s : Stats)
    (hd : (processSingle cfg env st tt t hist s).outcome = .done .C) :
    (processSingle cfg env st tt t hist s).ops = [Op.queryTarget (metaKey t)] := by
  cases t with
  | none => simp [processSingle] at hd
  | some meta =>
      rcases hh : meta.hash.isEmpty with _ | _
      · rcases hl : (hist.lookup (lowerStr meta.hash)).isSome with _ | _
        · have hcf := getTorrentContent_truthy env st meta
          rcases hsc : (executeTransfer env tt (lowerStr meta.hash) meta
              (getTorrentContent env st meta)).scenario with _ | sc
          · rcases hok : (executeTransfer env tt (lowerStr meta.hash) meta
                (getTorrentContent env st meta)).ok with _ | _ <;>
              simp [processSingle, hh, hl, hcf, hsc, hok] at hd
          · rcases hok : (executeTransfer env tt (lowerStr meta.hash) meta
                (getTorrentContent env st meta)).ok with _ | _
            · simp [processSingle, hh, hl, hcf, hsc, hok] at hd
            · cases sc with
              | A =>
                  rcases hcs : cfg.cleanSource with _ | _ <;>
                    simp [processSingle, hh, hl, hcf, hsc, hok, hcs] at hd
              | B =>
                  rcases hcs : cfg.cleanSource with _ | _ <;>
                    simp [processSingle, hh, hl, hcf, hsc, hok, hcs] at hd
              | C =>
                  have hops := execTransfer_C_ops env tt (lowerStr meta.hash) meta
                    (getTorrentContent env st meta) hsc
                  simp [processSingle, hh, hl, hcf, hsc, hok, hops, metaKey]
        · simp [processSingle, hh, hl] at hd
      · simp [processSingle, hh] at hd

/-- C8: a scenario-C outcome issues no mutation against the target, is
counted as skipped, and never pauses the source; a source pause appears in
a per-torrent trace only when the outcome is a successful scenario A or B
and pausing is configured. -/
theorem C8_scenario_c_frame :
    (∀ cfg env st tt t hist s,
      (processSingle cfg env st tt t hist s).outcome = .done .C →
        (processSingle cfg env st tt t hist s).ops.filter
            (fun o => o.isMutation) = [] ∧
        (processSingle cfg env st tt t hist s).stats.skipped = s.skipped + 1 ∧
        (processSingle cfg env st tt t hist s).ops.filter
            (fun o => o.isStop) = []) ∧
    (∀ cfg env st tt t hist s o,
      o ∈ (processSingle cfg env st tt t hist s).ops → o.isStop = true →
      (processSingle cfg env st tt t hist s).outcome.isDoneAB = true ∧
      cfg.cleanSource = true) := by
  constructor
  · intro cfg env st tt t hist s hd
    have hops := processSingle_C_ops cfg env st tt t hist s hd
    refine ⟨by rw [hops]; rfl, ?_, by rw [hops]; rfl⟩
    rw [processSingle_skipped_eq, hd]
    simp
  · intro cfg env st tt t hist s o ho hstop
    rcases processSingle_ops_split cfg env st tt t hist s
      with hsplit | ⟨meta, ht, hl, hsplit⟩
    · rw [hsplit] at ho
      simp at ho
    · rw [hsplit] at ho
      rcases List.mem_append.mp ho with ho | ho
      · have hns := (execTransfer_ops_safe env tt _ meta _ o ho).2.2
        rw [hstop] at hns
        cases hns
      · rcases hif : ((processSingle cfg env st tt t hist s).outcome.isDoneAB
            && cfg.cleanSource) with _ | _
        · rw [hif] at ho
          simp at ho
        · exact ⟨(Bool.and_eq_true _ _).mp hif |>.1, (Bool.and_eq_true _ _).mp hif |>.2⟩

theorem C8_scenario_c_frame_witness :
    ((processSingle baseCfg envC8 .qb .tr (some metaOneTracker) []
        emptyStats).outcome = .done .C ∧
      (processSingle baseCfg envC8 .qb .tr (some metaOneTracker) []
        emptyStats).ops.filter (fun o => o.isMutation) = []) ∧
    (Op.stopTorrents "abc123".toList ∈
        (processSingle baseCfg baseEnv .qb .tr (some metaOneTracker) []
          emptyStats).ops ∧
      (processSingle baseCfg baseEnv .qb .tr (some metaOneTracker) []
        emptyStats).outcome.isDoneAB = true ∧
      baseCfg.cleanSource = true) :=
  ⟨⟨by decide,
    (C8_scenario_c_frame.1 baseCfg envC8 .qb .tr (some metaOneTracker) []
      emptyStats (by decide)).1⟩,
   ⟨by decide,
    C8_scenario_c_frame.2 baseCfg baseEnv .qb .tr (some metaOneTracker) []
      emptyStats (Op.stopTorrents "abc123".toList) (by decide) (by decide)⟩⟩

/-- C7: a ledger entry is written exactly when the scenario action
succeeds (the history gains exactly the new hash-keyed record then, and is
untouched otherwise), a written hash was not previously ledgered, existing
entries are never mutated or deleted, and a failed action increments
exactly the failed counter. -/
theorem C7_ledger_lifecycle :
    (∀ cfg env st tt t hist s,
      (processSingle cfg env st tt t hist s).hist =
        (match (processSingle cfg env st tt t hist s).outcome with
         | .done sc => (metaKey t,
             Record.mk (metaName t) sc env.now cfg.sourceId cfg.targetId) :: hist
         | _ => hist)) ∧
    (∀ cfg env st tt t hist s,
      hist <:+ (processSingle cfg env st tt t hist s).hist) ∧
    (∀ cfg env st tt t hist s,
      (processSingle cfg env st tt t hist s).outcome.isDone = true →
      (hist.lookup (metaKey t)).isSome = false) ∧
    (∀ cfg env st tt t hist s k, (hist.lookup k).isSome = true →
      ((processSingle cfg env st tt t hist s).hist).lookup k = hist.lookup k) ∧
    (∀ cfg env st tt t hist s,
      (processSingle cfg env st tt t hist s).stats.failed =
        s.failed + (if (processSingle cfg env st tt t hist s).outcome.isFailedItem
          then 1 else 0)) := by
  refine ⟨fun cfg env st tt t hist s => processSingle_hist_eq cfg env st tt t hist s,
    fun cfg env st tt t hist s => ?_,
    fun cfg env st tt t hist s => processSingle_done_fresh cfg env st tt t hist s,
    fun cfg env st tt t hist s k => processSingle_lookup_preserve cfg env st tt t hist s k,
    fun cfg env st tt t hist s => processSingle_failed_eq cfg env st tt t hist s⟩
  rw [processSingle_hist_eq]
  rcases (processSingle cfg env st tt t hist s).outcome with _ | _ | _ | _ | sc
  · exact List.suffix_refl hist
  · exact List.suffix_refl hist
  · exact List.suffix_refl hist
  · exact List.suffix_refl hist
  · exact ⟨[(metaKey t, Record.mk (metaName t) sc env.now cfg.sourceId cfg.targetId)], rfl⟩

theorem C7_ledger_lifecycle_witness :
    ((processSingle baseCfg baseEnv .qb .tr (some sampleMeta) c7Hist
        emptyStats).outcome.isDone = true ∧
      (c7Hist.lookup (metaKey (some sampleMeta))).isSome = false) ∧
    ((c7Hist.lookup "zz".toList).isSome = true ∧
      ((processSingle baseCfg baseEnv .qb .tr (some sampleMeta) c7Hist
          emptyStats).hist).lookup "zz".toList = c7Hist.lookup "zz".toList) :=
  ⟨⟨by decide,
    C7_ledger_lifecycle.2.2.1 baseCfg baseEnv .qb .tr (some sampleMeta) c7Hist
      emptyStats (by decide)⟩,
   ⟨by decide,
    C7_ledger_lifecycle.2.2.2.1 baseCfg baseEnv .qb .tr (some sampleMeta) c7Hist
      emptyStats "zz".toList (by decide)⟩⟩

/-- C3 counterexample: with target trackers `["ftp://b"]` and source
trackers `["http://a"]`, the run classifies as scenario B (the filtered
target view is empty, so `http://a` is missing) and the bulk tier-rebuild
resubmits only the sanitized union of the filtered view and the missing
set — the target's tracker set afterwards no longer contains `ftp://b`,
so it is not a superset of the pre-run set. -/
theorem C3_counterexample :
    (executeTransfer envC3 .tr "abc123".toList metaOneTracker
        (.magnet "m".toList)).scenario = some .B ∧
    "ftp://b".toList ∈ preTrackerState envC3 .tr "abc123".toList ∧
    (applyTrackerOps envC3 "abc123".toList
        (preTrackerState envC3 .tr "abc123".toList)
        (executeTransfer envC3 .tr "abc123".toList metaOneTracker
          (.magnet "m".toList)).ops).contains "ftp://b".toList = false := by
  refine ⟨by decide, by decide, by decide⟩

/-- C3 (amended): a scenario-B run never loses any target tracker that
starts with `http` or `udp` and carries no surrounding whitespace — the
qB path and the `tracker_add` fallback only append, and the bulk
tier-rebuild resubmits the sanitized union of the filtered existing view
and the missing set, which retains every such tracker; only trackers of
other schemes (or with surrounding whitespace), which the filtered readers
drop, can be lost on the bulk path. -/
theorem C3_tracker_monotonicity (env : Env) (tt : ClientType) (h : Str)
    (meta : Meta) (content : Content) (t : Str)
    (ht : t ∈ preTrackerState env tt h) (hs : startsHU t = true)
    (hp : pyStrip t = t) :
    t ∈ applyTrackerOps env h (preTrackerState env tt h)
          (executeTransfer env tt h meta content).ops :=
  execTransfer_keeps_clean_trackers env tt h meta content t ht hs hp

theorem C3_tracker_monotonicity_witness :
    ("http://a".toList ∈ preTrackerState envC3w .tr "abc123".toList ∧
      startsHU "http://a".toList = true ∧
      pyStrip "http://a".toList = "http://a".toList) ∧
    "http://a".toList ∈ applyTrackerOps envC3w "abc123".toList
        (preTrackerState envC3w .tr "abc123".toList)
        (executeTransfer envC3w .tr "abc123".toList metaC3w
          (.magnet "m".toList)).ops :=
  ⟨⟨by decide, by decide, by decide⟩,
   C3_tracker_monotonicity envC3w .tr "abc123".toList metaC3w
     (.magnet "m".toList) "http://a".toList (by decide) (by decide) (by decide)⟩

/-- C6 counterexample: when the target query for the first torrent (`aa`)
fails, the run does not abort — the failure is counted (failed = 1) and
the second torrent (`bb`) is still processed, as witnessed by its target
query appearing in the trace. -/
theorem C6_counterexample :
    envC6.queryError "aa".toList = true ∧
    (doTransfer baseCfg envC6 .qb .tr
        (some [some metaHashAA, some metaHashBB]) []).stats.failed = 1 ∧
    Op.queryTarget "bb".toList ∈
      (doTransfer baseCfg envC6 .qb .tr
        (some [some metaHashAA, some metaHashBB]) []).ops := by
  refine ⟨by decide, by decide, by decide⟩

/-- C6 (amended): only a failure of the source enumeration (the completed
list call returning `None`) aborts the run; a target query-by-hash failure
is caught at the torrent boundary — the torrent is counted failed, the
ledger is untouched, and the remaining torrents are processed exactly as
they would have been. -/
theorem C6_failure_containment :
    (∀ cfg env st tt hist,
      doTransfer cfg env st tt none hist = ⟨hist, emptyStats, []⟩) ∧
    (∀ cfg env (st tt : ClientType) meta ts hist s,
      meta.hash.isEmpty = false →
      (hist.lookup (lowerStr meta.hash)).isSome = false →
      env.queryError (lowerStr meta.hash) = true →
      runLoop cfg env st tt (some meta :: ts) hist s =
        ⟨(runLoop cfg env st tt ts hist
            { s with failed := s.failed + 1,
                     details := s.details ++ ["[失败] ".toList ++ meta.name] }).hist,
         (runLoop cfg env st tt ts hist
            { s with failed := s.failed + 1,
                     details := s.details ++ ["[失败] ".toList ++ meta.name] }).stats,
         Op.queryTarget (lowerStr meta.hash) ::
           (runLoop cfg env st tt ts hist
              { s with failed := s.failed + 1,
                       details := s.details ++ ["[失败] ".toList ++ meta.name] }).ops⟩) := by
  constructor
  · intro cfg env st tt hist
    by_cases hid : cfg.sourceId = cfg.targetId <;> simp [doTransfer, hid]
  · intro cfg env st tt meta ts hist s hh hl hq
    rw [runLoop_cons, processSingle_queryError cfg env st tt meta hist s hh hl hq]
    rfl

theorem C6_failure_containment_witness :
    (metaHashAA.hash.isEmpty = false ∧
      (([] : History).lookup (lowerStr metaHashAA.hash)).isSome = false ∧
      envC6.queryError (lowerStr metaHashAA.hash) = true) ∧
    runLoop baseCfg envC6 .qb .tr [some metaHashAA, some metaHashBB] []
        emptyStats =
      ⟨(runLoop baseCfg envC6 .qb .tr [some metaHashBB] []
          { emptyStats with failed := emptyStats.failed + 1,
                            details := emptyStats.details ++
                              ["[失败] ".toList ++ metaHashAA.name] }).hist,
       (runLoop baseCfg envC6 .qb .tr [some metaHashBB] []
          { emptyStats with failed := emptyStats.failed + 1,
                            details := emptyStats.details ++
                              ["[失败] ".toList ++ metaHashAA.name] }).stats,
       Op.queryTarget (lowerStr metaHashAA.hash) ::
         (runLoop baseCfg envC6 .qb .tr [some metaHashBB] []
            { emptyStats with failed := emptyStats.failed + 1,
                              details := emptyStats.details ++
                                ["[失败] ".toList ++ metaHashAA.name] }).ops⟩ :=
  ⟨⟨by decide, by decide, by decide⟩,
   C6_failure_containment.2 baseCfg envC6 .qb .tr metaHashAA [some metaHashBB]
     [] emptyStats (by decide) (by decide) (by decide)⟩

end AdvTransfer
